import Mathlib

/-!
Verification of the data-cleaning and filtering pipeline of the CDE used-car
dashboard repository (`pro3_st.py` and `load_to_db.py`).

Cell values of the tabular dataset are modelled by `Value`: a pandas cell is
either a number (modelled by `ℚ`, covering Python ints and the finite floats
the pipeline actually produces), a string, or the missing marker `NaN`.
String operations are modelled over ASCII, which covers the data the scripts
handle.
-/

namespace CDE

/-- A pandas cell: numeric, string, or missing (`NaN`). -/
inductive Value where
  | vnum (q : ℚ)
  | vstr (s : String)
  | vnan
deriving DecidableEq, Repr

/-- Python `int` of a string of decimal digits (the `int(num)` call in
`clean_engine_capacity`). -/
def natOfDigits (l : List Char) : Nat :=
  l.foldl (fun a c => 10 * a + (c.toNat - 48)) 0

/-- Python `pat in s` substring test, via `List.isPrefixOf` at every tail. -/
def hasSubstr (pat : List Char) : List Char → Bool
  | [] => pat.isEmpty
  | c :: cs => pat.isPrefixOf (c :: cs) || hasSubstr pat cs

/-- `clean_engine_capacity` from `pro3_st.py` lines 27-36:
strings are lower-cased, the space characters are removed, every digit
character is collected; no digits gives `NaN`; with digits, a `"cc"`, `"kwh"`
or `"kw"` substring makes the result the collected digits as an int, otherwise
the original value is returned.  Non-strings pass through unchanged. -/
def clean_engine_capacity (value : Value) : Value :=
  match value with
  | .vstr s =>
      let v := (s.toList.map Char.toLower).filter (fun c => c ≠ ' ')
      let num := v.filter Char.isDigit
      if num.isEmpty then .vnan
      else if hasSubstr ['c', 'c'] v || hasSubstr ['k', 'w', 'h'] v
              || hasSubstr ['k', 'w'] v then
        .vnum (natOfDigits num)
      else value
  | _ => value

/-- Numeric parse of a string as Python `float` does on the inputs the
pipeline meets: optional sign, integer digits, optional fractional part.
`none` models an unparseable string. -/
def parseFloatQ (s : String) : Option ℚ :=
  let l := s.toList
  let neg : Bool := match l with
    | '-' :: _ => true
    | _ => false
  let rest := match l with
    | '-' :: r => r
    | '+' :: r => r
    | r => r
  let ip := rest.takeWhile Char.isDigit
  let r1 := rest.dropWhile Char.isDigit
  let mag : Option ℚ := match r1 with
    | [] => if ip.isEmpty then none else some (natOfDigits ip : ℚ)
    | '.' :: fr =>
        if fr.all Char.isDigit && !(ip.isEmpty && fr.isEmpty) then
          some ((natOfDigits ip : ℚ) + (natOfDigits fr : ℚ) / (10 ^ fr.length))
        else none
    | _ => none
  mag.map (fun q => if neg then -q else q)

/-- `pd.to_numeric(·, errors="coerce")` on one cell: numbers stay, `NaN`
stays, strings parse to a number or coerce to `NaN`. -/
def toNumeric (v : Value) : Value :=
  match v with
  | .vnum q => .vnum q
  | .vnan => .vnan
  | .vstr s =>
      match parseFloatQ s with
      | some q => .vnum q
      | none => .vnan

example : clean_engine_capacity (.vstr "1300cc") = .vnum 1300 := by decide
example : clean_engine_capacity (.vstr "50kw") = .vnum 50 := by decide
example : clean_engine_capacity (.vstr "abc") = .vnan := by decide
example : clean_engine_capacity (.vnum 5000) = .vnum 5000 := by decide
example : clean_engine_capacity (.vstr "cc1300") = .vnum 1300 := by decide
example : clean_engine_capacity (.vstr "1300c\tc") = .vstr "1300c\tc" := by decide
example : toNumeric (.vstr "5000") = .vnum 5000 := by decide
example : toNumeric (.vstr "-42") = .vnum (-42) := by decide
example : toNumeric (.vstr "abc") = .vnan := by decide

/-- A row of the dataset: the 12 CSV columns, plus the `brand` column the
pipeline adds (`NaN` until `deriveBrand` fills it). -/
structure Row where
  title : Value := .vnan
  price : Value := .vnan
  year : Value := .vnan
  mileage : Value := .vnan
  fuel : Value := .vnan
  engine_capacity : Value := .vnan
  transmission : Value := .vnan
  registered_in : Value := .vnan
  color : Value := .vnan
  body_type : Value := .vnan
  assembly : Value := .vnan
  last_updated : Value := .vnan
  brand : Value := .vnan
deriving DecidableEq, Repr

/-- Pandas `series >= c` on one cell: `NaN` (and non-numeric cells)
compare as `false`. -/
def vge (v : Value) (c : ℚ) : Bool :=
  match v with
  | .vnum q => decide (c ≤ q)
  | _ => false

/-- Pandas `series <= c` on one cell: `NaN` (and non-numeric cells)
compare as `false`. -/
def vle (v : Value) (c : ℚ) : Bool :=
  match v with
  | .vnum q => decide (q ≤ c)
  | _ => false

/-- Lines 38-40 of `pro3_st.py`: `engine_capacity` goes through
`clean_engine_capacity` then `pd.to_numeric(errors="coerce")`; `mileage`
goes through `pd.to_numeric(errors="coerce")`. -/
def coerceRow (r : Row) : Row :=
  { r with
    engine_capacity := toNumeric (clean_engine_capacity r.engine_capacity)
    mileage := toNumeric r.mileage }

/-- Line 43: `(df["mileage"] >= 0) & (df["mileage"] <= 800_000)`. -/
def mileageOk (r : Row) : Bool :=
  vge r.mileage 0 && vle r.mileage 800000

/-- Lines 44-47: engine capacity in `[600, 7000]` or in `[20, 150]`. -/
def engineOk (r : Row) : Bool :=
  (vge r.engine_capacity 600 && vle r.engine_capacity 7000) ||
  (vge r.engine_capacity 20 && vle r.engine_capacity 150)

/-- Line 48: `df.dropna(subset=["engine_capacity"])`. -/
def engineNotNa (r : Row) : Bool :=
  r.engine_capacity ≠ .vnan

/-- Python `s.split(' ')` on a list of characters: split at every single
space character, keeping empty fragments (so `"".split(' ') == ['']` and
`" a".split(' ') == ['', 'a']`). -/
def splitSpace : List Char → List (List Char)
  | [] => [[]]
  | c :: cs =>
      if c = ' ' then [] :: splitSpace cs
      else
        match splitSpace cs with
        | [] => [[c]]
        | h :: t => (c :: h) :: t

/-- `s.split(' ')[0]`: the head of the space-split fragments (the split
list is never empty). -/
def firstTokenSpace (s : String) : String :=
  match splitSpace s.toList with
  | [] => ""
  | h :: _ => String.mk h

/-- Line 51, one cell: `df['title'].str.split(' ').str[0]`.  A non-string
title gives `NaN` (pandas `.str` accessor yields `NaN` on non-strings). -/
def brandOfTitle (t : Value) : Value :=
  match t with
  | .vstr s => .vstr (firstTokenSpace s)
  | _ => .vnan

/-- Line 51: add the derived `brand` column. -/
def deriveBrand (r : Row) : Row :=
  { r with brand := brandOfTitle r.title }

/-- The cleaning pipeline of `pro3_st.py` lines 38-51: coerce
`engine_capacity` and `mileage`, filter by the mileage range, filter by the
engine-capacity ranges, drop `NaN` engine capacities, derive `brand`. -/
def cleanDataset (src : List Row) : List Row :=
  ((((src.map coerceRow).filter mileageOk).filter engineOk).filter
    engineNotNa).map deriveBrand

/-- Lines 70-72: keep rows whose `brand` is in the selection, then keep
rows whose `year` lies in the inclusive range (`NaN` years compare as
`false` and are dropped). -/
def filterView (ds : List Row) (sel : List Value) (lo hi : ℚ) : List Row :=
  (ds.filter (fun r => decide (r.brand ∈ sel))).filter
    (fun r => vge r.year lo && vle r.year hi)

/-! ### Column normalization and persistence defaults (`load_to_db.py`) -/

/-- The whitespace characters Python `str.strip()` removes (ASCII). -/
def isPyWhitespace (c : Char) : Bool :=
  c = ' ' || c = '\t' || c = '\n' || c = '\r' ||
  c = Char.ofNat 11 || c = Char.ofNat 12

/-- A Python regex `\w` character (ASCII): alphanumeric or underscore. -/
def isPyWordChar (c : Char) : Bool :=
  c.isAlphanum || c = '_'

/-- Python `str.strip()`: drop leading and trailing whitespace. -/
def stripWS (l : List Char) : List Char :=
  ((l.dropWhile isPyWhitespace).reverse.dropWhile isPyWhitespace).reverse

/-- Line 11 of `load_to_db.py`, one label:
`.str.strip().str.replace(' ', '_').str.replace(r'[^\w]', '', regex=True)`:
strip, turn each space into an underscore, delete non-word characters. -/
def normalizeCol (s : String) : String :=
  String.mk (((stripWS s.toList).map
    (fun c => if c = ' ' then '_' else c)).filter isPyWordChar)

/-- Line 14, one cell: `df.fillna(0)` replaces a missing value with the
number 0 in every column, text columns included. -/
def fillna0 (v : Value) : Value :=
  match v with
  | .vnan => .vnum 0
  | x => x

/-- Python `str(·)` on a cell, as the insert loop applies it to text
columns.  Integral numbers print as Python ints do; only the integral case
is ever exercised by the source, since text columns hold strings or the
fill value 0. -/
def pyStrValue (v : Value) : String :=
  match v with
  | .vstr s => s
  | .vnum q => if q.den = 1 then toString q.num else toString q
  | .vnan => "nan"

/-- What the insert loop stores for a text column (lines 45-62):
`str(row[col])` after the `fillna(0)` of line 14. -/
def storedText (v : Value) : String :=
  pyStrValue (fillna0 v)

/-- What the insert loop stores for a float column (lines 45-62):
`float(row[col])` after the `fillna(0)` of line 14; `none` models a raised
conversion failure. -/
def storedFloat (v : Value) : Option ℚ :=
  match fillna0 v with
  | .vnum q => some q
  | .vstr s => parseFloatQ s
  | .vnan => none

/-! ### Spec-side definitions

These follow the wording of the specification, for comparison with the
definitions above taken from the code. -/

/-- The engine-capacity normalizer exactly as the spec describes it: the
text is lower-cased with all whitespace removed, then the maximal LEADING
run of digit characters is extracted (empty run means missing), and a unit
token anywhere makes the result that number. -/
def specCleanStated (value : Value) : Value :=
  match value with
  | .vstr s =>
      let v := (s.toList.map Char.toLower).filter (fun c => !(isPyWhitespace c))
      let num := v.takeWhile Char.isDigit
      if num.isEmpty then .vnan
      else if hasSubstr "cc".toList v || hasSubstr "kwh".toList v
              || hasSubstr "kw".toList v then
        .vnum (natOfDigits num)
      else value
  | _ => value

/-- The engine-capacity normalizer as amended: space characters (only)
are removed after lower-casing, ALL digit characters of the normalized
text are concatenated and extracted, and otherwise the behavior is as the
spec describes. -/
def specCleanAmended (value : Value) : Value :=
  match value with
  | .vstr s =>
      let v := (s.toList.map Char.toLower).filter (fun c => c ≠ ' ')
      let ds := v.filter (fun c => decide ('0' ≤ c ∧ c ≤ '9'))
      if ds = [] then .vnan
      else if hasSubstr "cc".toList v || hasSubstr "kwh".toList v
              || hasSubstr "kw".toList v then
        .vnum (natOfDigits ds)
      else .vstr s
  | v => v

/-- "First whitespace-delimited token" as the spec words it: skip leading
whitespace, then take the run of non-whitespace characters. -/
def specFirstWSToken (s : String) : String :=
  String.mk ((s.toList.dropWhile isPyWhitespace).takeWhile
    (fun c => !(isPyWhitespace c)))

/-! ### Concrete rows used by witnesses and counterexamples -/

/-- A well-formed source row: a combustion car whose engine capacity
carries a `cc` suffix. -/
def exRowGood : Row :=
  { title := .vstr "Toyota Corolla 2015"
    price := .vnum 2500000
    year := .vnum 2015
    mileage := .vnum 100000
    fuel := .vstr "Petrol"
    engine_capacity := .vstr "1300cc" }

/-- Same title as `exRowGood` but different in every other field. -/
def exRowGood2 : Row :=
  { title := .vstr "Toyota Corolla 2015"
    price := .vnum 1
    year := .vnum 1999
    mileage := .vnum 5
    fuel := .vstr "Diesel"
    engine_capacity := .vstr "50kw" }

/-- A source row whose mileage does not coerce to a number. -/
def exRowBadMileage : Row :=
  { title := .vstr "Suzuki Alto"
    mileage := .vstr "unknown"
    engine_capacity := .vstr "1000cc" }

/-- An already-cleaned row with brand `"Toyota"` and year 2010. -/
def rcA : Row :=
  { title := .vstr "Toyota Corolla"
    year := .vnum 2010
    mileage := .vnum 50000
    engine_capacity := .vnum 1300
    brand := .vstr "Toyota" }

/-- An already-cleaned row with brand `"Toyota"` and a missing year. -/
def rcB : Row :=
  { title := .vstr "Toyota Vitz"
    year := .vnan
    mileage := .vnum 60000
    engine_capacity := .vnum 1000
    brand := .vstr "Toyota" }

/-- The two-row cleaned dataset of the year-filter counterexample. -/
def dsC6 : List Row := [rcA, rcB]

/-! ### Helper lemmas -/

lemma toNumeric_cases (w : Value) :
    toNumeric w = .vnan ∨ ∃ q, toNumeric w = .vnum q := by
  cases w with
  | vnum q => exact Or.inr ⟨q, rfl⟩
  | vnan => exact Or.inl rfl
  | vstr s =>
      cases h : parseFloatQ s with
      | none => exact Or.inl (by simp [toNumeric, h])
      | some q => exact Or.inr ⟨q, by simp [toNumeric, h]⟩

lemma wordChar_props {c : Char} (h : isPyWordChar c = true) :
    isPyWhitespace c = false ∧ c ≠ ' ' := by
  have hs : c ≠ ' ' := by
    intro hc; subst hc; exact absurd h (by decide)
  refine ⟨?_, hs⟩
  rw [Bool.eq_false_iff]
  intro hws
  simp only [isPyWhitespace, Bool.or_eq_true, decide_eq_true_eq, or_assoc] at hws
  rcases hws with h1 | h1 | h1 | h1 | h1 | h1 <;> subst h1 <;>
    exact absurd h (by decide)

lemma dropWhile_eq_self_of_all {p : Char → Bool} (l : List Char)
    (h : ∀ c ∈ l, p c = false) : l.dropWhile p = l := by
  cases l with
  | nil => rfl
  | cons c cs => simp [List.dropWhile_cons, h c (List.mem_cons_self c cs)]

lemma stripWS_eq_self_of_all (l : List Char)
    (h : ∀ c ∈ l, isPyWhitespace c = false) : stripWS l = l := by
  unfold stripWS
  rw [dropWhile_eq_self_of_all l h,
    dropWhile_eq_self_of_all l.reverse (fun c hc => h c (List.mem_reverse.mp hc)),
    List.reverse_reverse]

lemma map_if_space_id (l : List Char) (h : ∀ c ∈ l, c ≠ ' ') :
    l.map (fun c => if c = ' ' then '_' else c) = l := by
  induction l with
  | nil => rfl
  | cons c cs ih =>
      simp only [List.map_cons, List.cons.injEq]
      exact ⟨if_neg (h c (List.mem_cons_self c cs)),
        ih (fun x hx => h x (List.mem_cons_of_mem c hx))⟩

lemma string_toList_inj {s t : String} (h : s.toList = t.toList) : s = t := by
  cases s; cases t
  simp only [String.toList] at h
  exact congrArg String.mk h

lemma normalizeCol_toList (s : String) :
    (normalizeCol s).toList =
      ((stripWS s.toList).map (fun c => if c = ' ' then '_' else c)).filter
        isPyWordChar := rfl

/-! ### Theorems for the claims -/

/-- C4: the column-name normalization of `load_to_db.py` line 11 (strip,
replace spaces with underscores, delete non-word characters) is
idempotent, and it is a total function on strings. -/
theorem normalizeCol_idempotent (s : String) :
    normalizeCol (normalizeCol s) = normalizeCol s := by
  have hall : ∀ c ∈ (normalizeCol s).toList, isPyWordChar c = true := by
    intro c hc
    rw [normalizeCol_toList] at hc
    exact (List.mem_filter.mp hc).2
  apply string_toList_inj
  rw [normalizeCol_toList (normalizeCol s),
    stripWS_eq_self_of_all _ (fun c hc => (wordChar_props (hall c hc)).1),
    map_if_space_id _ (fun c hc => (wordChar_props (hall c hc)).2),
    List.filter_eq_self.mpr hall]

/-- C7: filtering any dataset with an empty brand selection yields zero
rows, whatever the year range. -/
theorem filterView_empty_selection (ds : List Row) (lo hi : ℚ) :
    filterView ds [] lo hi = [] := by
  unfold filterView
  have h1 : ds.filter (fun r => decide (r.brand ∈ ([] : List Value))) = [] :=
    List.filter_eq_nil_iff.mpr (fun r _ => by simp)
  rw [h1]
  rfl

/-- C9: engine-capacity normalization followed by numeric coercion is
total: every input value yields either a number or the explicit missing
marker, never a failure. -/
theorem clean_engine_capacity_total (v : Value) :
    toNumeric (clean_engine_capacity v) = .vnan ∨
    ∃ q, toNumeric (clean_engine_capacity v) = .vnum q :=
  toNumeric_cases (clean_engine_capacity v)

/-- C5 counterexample: a missing value in a text column is stored as the
string `"0"` after `fillna(0)` and `str(·)`, not as the empty string the
claim requires. -/
theorem storedText_missing_counterexample :
    storedText .vnan = "0" ∧ storedText .vnan ≠ "" := by
  constructor <;> decide

/-- C5 amended: every missing value is replaced with the number 0 before
storage; a numeric column therefore stores 0, a text column stores the
string `"0"` (not the empty string), and non-missing values are kept
unchanged (the destination schema has no date column). -/
theorem fillna_zero_amended :
    storedFloat .vnan = some 0 ∧ storedText .vnan = "0" ∧
    (∀ v : Value, v ≠ .vnan → fillna0 v = v) := by
  refine ⟨by decide, by decide, ?_⟩
  intro v hv
  cases v with
  | vnum q => rfl
  | vstr s => rfl
  | vnan => exact absurd rfl hv

/-- Closed witness for the amended C5 theorem at a concrete non-missing
value. -/
theorem fillna_zero_amended_witness :
    fillna0 (Value.vstr "Honda") = Value.vstr "Honda" :=
  fillna_zero_amended.2.2 (Value.vstr "Honda") (by decide)

lemma mem_cleanDataset {src : List Row} {r : Row} (h : r ∈ cleanDataset src) :
    ∃ r', r = deriveBrand r' ∧ mileageOk r' = true ∧ engineOk r' = true := by
  unfold cleanDataset at h
  rw [List.mem_map] at h
  obtain ⟨r', hr', hb⟩ := h
  rw [List.mem_filter] at hr'
  obtain ⟨hr2, _⟩ := hr'
  rw [List.mem_filter] at hr2
  obtain ⟨hr3, heng⟩ := hr2
  rw [List.mem_filter] at hr3
  exact ⟨r', hb.symm, hr3.2, heng⟩

lemma engineOk_spec {r : Row} (h : engineOk r = true) :
    ∃ q, r.engine_capacity = .vnum q ∧
      ((600 ≤ q ∧ q ≤ 7000) ∨ (20 ≤ q ∧ q ≤ 150)) := by
  cases hec : r.engine_capacity with
  | vnum q =>
      refine ⟨q, rfl, ?_⟩
      unfold engineOk vge vle at h
      rw [hec] at h
      simpa using h
  | vstr s => unfold engineOk vge vle at h; rw [hec] at h; simp at h
  | vnan => unfold engineOk vge vle at h; rw [hec] at h; simp at h

lemma mileageOk_spec {r : Row} (h : mileageOk r = true) :
    ∃ q, r.mileage = .vnum q ∧ 0 ≤ q ∧ q ≤ 800000 := by
  cases hm : r.mileage with
  | vnum q =>
      refine ⟨q, rfl, ?_⟩
      unfold mileageOk vge vle at h
      rw [hm] at h
      simpa using h
  | vstr s => unfold mileageOk vge vle at h; rw [hm] at h; simp at h
  | vnan => unfold mileageOk vge vle at h; rw [hm] at h; simp at h

lemma cleanDataset_singleton_of_mileage_bad {r0 : Row}
    (h : mileageOk (coerceRow r0) = false) : cleanDataset [r0] = [] := by
  unfold cleanDataset
  simp [List.filter, h]

/-- C2: every row of the cleaned dataset has a numeric engine capacity in
`[600, 7000]` or in `[20, 150]`; a source row whose coerced engine
capacity is missing or outside both ranges yields no cleaned row. -/
theorem engine_capacity_invariant :
    (∀ (src : List Row) (r : Row), r ∈ cleanDataset src →
        ∃ q, r.engine_capacity = .vnum q ∧
          ((600 ≤ q ∧ q ≤ 7000) ∨ (20 ≤ q ∧ q ≤ 150))) ∧
    (∀ r0 : Row,
        (∀ q : ℚ, toNumeric (clean_engine_capacity r0.engine_capacity) = .vnum q →
          ¬((600 ≤ q ∧ q ≤ 7000) ∨ (20 ≤ q ∧ q ≤ 150))) →
        cleanDataset [r0] = []) := by
  constructor
  · intro src r h
    obtain ⟨r', hb, _, heng⟩ := mem_cleanDataset h
    obtain ⟨q, hq, hr⟩ := engineOk_spec heng
    exact ⟨q, by rw [hb]; exact hq, hr⟩
  · intro r0 hq
    cases hmil : mileageOk (coerceRow r0) with
    | false => exact cleanDataset_singleton_of_mileage_bad hmil
    | true =>
        have heng : engineOk (coerceRow r0) = false := by
          rw [Bool.eq_false_iff]
          intro hcon
          obtain ⟨q, hqe, hr⟩ := engineOk_spec hcon
          have : toNumeric (clean_engine_capacity r0.engine_capacity) = .vnum q := hqe
          exact hq q this hr
        unfold cleanDataset
        simp [List.filter, hmil, heng]

/-- Closed witness for C2: a row with engine capacity `"1300cc"` survives
cleaning with the numeric value 1300, inside the combustion range. -/
theorem engine_capacity_invariant_witness :
    ∃ q, (deriveBrand (coerceRow exRowGood)).engine_capacity = .vnum q ∧
      ((600 ≤ q ∧ q ≤ 7000) ∨ (20 ≤ q ∧ q ≤ 150)) :=
  engine_capacity_invariant.1 [exRowGood] (deriveBrand (coerceRow exRowGood))
    (by decide)

/-- C3: every row of the cleaned dataset has a numeric mileage in
`[0, 800000]`, and a source row with mileage 900000 is excluded whatever
its other fields hold. -/
theorem mileage_invariant :
    (∀ (src : List Row) (r : Row), r ∈ cleanDataset src →
        ∃ q, r.mileage = .vnum q ∧ 0 ≤ q ∧ q ≤ 800000) ∧
    (∀ r0 : Row, r0.mileage = .vnum 900000 → cleanDataset [r0] = []) := by
  constructor
  · intro src r h
    obtain ⟨r', hb, hmil, _⟩ := mem_cleanDataset h
    obtain ⟨q, hq, hr⟩ := mileageOk_spec hmil
    exact ⟨q, by rw [hb]; exact hq, hr⟩
  · intro r0 hm
    apply cleanDataset_singleton_of_mileage_bad
    have hcm : (coerceRow r0).mileage = .vnum 900000 := by
      unfold coerceRow
      simp [hm, toNumeric]
    unfold mileageOk vle
    rw [hcm]
    have : ¬((900000 : ℚ) ≤ 800000) := by norm_num
    simp [this]

/-- Closed witness for C3: the good example row survives cleaning with its
mileage 100000 in range. -/
theorem mileage_invariant_witness :
    ∃ q, (deriveBrand (coerceRow exRowGood)).mileage = .vnum q ∧
      0 ≤ q ∧ q ≤ 800000 :=
  mileage_invariant.1 [exRowGood] (deriveBrand (coerceRow exRowGood))
    (by decide)

/-- C10: mileage is never missing in the cleaned dataset, and a source row
whose mileage fails numeric coercion yields no cleaned row. -/
theorem mileage_never_missing :
    (∀ (src : List Row) (r : Row), r ∈ cleanDataset src →
        ∃ q, r.mileage = .vnum q) ∧
    (∀ r0 : Row, toNumeric r0.mileage = .vnan → cleanDataset [r0] = []) := by
  constructor
  · intro src r h
    obtain ⟨r', hb, hmil, _⟩ := mem_cleanDataset h
    obtain ⟨q, hq, _⟩ := mileageOk_spec hmil
    exact ⟨q, by rw [hb]; exact hq⟩
  · intro r0 hm
    apply cleanDataset_singleton_of_mileage_bad
    have hcm : (coerceRow r0).mileage = .vnan := hm
    unfold mileageOk vge
    rw [hcm]
    rfl

/-- Closed witness for C10: a row whose mileage reads `"unknown"` is
dropped by the cleaning pipeline. -/
theorem mileage_never_missing_witness :
    cleanDataset [exRowBadMileage] = [] :=
  mileage_never_missing.2 exRowBadMileage (by decide)

/-- C1 counterexample: on `"cc1300"` the claim's leading-digit-run reading
gives a missing value while the code returns 1300, and on `"1300c<TAB>c"`
the claim's remove-all-whitespace reading gives 1300 while the code passes
the string through. -/
theorem clean_engine_capacity_stated_counterexample :
    clean_engine_capacity (.vstr "cc1300") = .vnum 1300 ∧
    specCleanStated (.vstr "cc1300") = .vnan ∧
    clean_engine_capacity (.vstr "1300c\tc") = .vstr "1300c\tc" ∧
    specCleanStated (.vstr "1300c\tc") = .vnum 1300 := by
  refine ⟨by decide, by decide, by decide, by decide⟩

/-- C1 amended: the normalizer lower-cases the text and removes space
characters (only), concatenates ALL digit characters of the normalized
text (missing if there are none), returns that number when a unit token
occurs anywhere in the normalized text, and passes the original value
through otherwise; the spec's four examples hold. -/
theorem clean_engine_capacity_amended :
    (∀ v, clean_engine_capacity v = specCleanAmended v) ∧
    clean_engine_capacity (.vstr "1300cc") = .vnum 1300 ∧
    clean_engine_capacity (.vstr "50kw") = .vnum 50 ∧
    clean_engine_capacity (.vstr "abc") = .vnan ∧
    clean_engine_capacity (.vnum 5000) = .vnum 5000 := by
  refine ⟨?_, by decide, by decide, by decide, rfl⟩
  intro v
  cases v with
  | vnum q => rfl
  | vnan => rfl
  | vstr s =>
      dsimp only [clean_engine_capacity, specCleanAmended]
      have hds : ((s.toList.map Char.toLower).filter (fun c => c ≠ ' ')).filter
          (fun c => decide ('0' ≤ c ∧ c ≤ '9')) =
          ((s.toList.map Char.toLower).filter (fun c => c ≠ ' ')).filter
            Char.isDigit :=
        List.filter_congr (fun c _ => by simp [Char.isDigit, Char.le_def])
      rw [hds]
      cases hE : ((s.toList.map Char.toLower).filter (fun c => c ≠ ' ')).filter
          Char.isDigit with
      | nil => rfl
      | cons a tl => rfl

lemma splitSpace_ne_nil : ∀ l : List Char, splitSpace l ≠ [] := by
  intro l
  cases l with
  | nil => simp [splitSpace]
  | cons c cs =>
      unfold splitSpace
      by_cases hc : c = ' '
      · simp [hc]
      · simp only [if_neg hc]
        cases splitSpace cs <;> simp

lemma splitSpace_head : ∀ (l h : List Char) (t : List (List Char)),
    splitSpace l = h :: t → h = l.takeWhile (fun c => c ≠ ' ') := by
  intro l
  induction l with
  | nil =>
      intro h t he
      simp only [splitSpace] at he
      injection he with h1 _
      simp [h1.symm]
  | cons c cs ih =>
      intro h t he
      by_cases hc : c = ' '
      · subst hc
        simp only [splitSpace, if_pos rfl] at he
        injection he with h1 _
        simp [h1.symm, List.takeWhile_cons]
      · simp only [splitSpace, if_neg hc] at he
        cases hsp : splitSpace cs with
        | nil => exact absurd hsp (splitSpace_ne_nil cs)
        | cons h' t' =>
            rw [hsp] at he
            injection he with h1 _
            rw [h1.symm, List.takeWhile_cons, if_pos (by simpa using hc),
              ih h' t' hsp]

/-- C8 counterexample: for the title `"Toyota<TAB>Corolla 2015"` the first
whitespace-delimited token is `"Toyota"`, but the code splits on the space
character only and derives the brand `"Toyota<TAB>Corolla"`. -/
theorem brand_whitespace_counterexample :
    brandOfTitle (.vstr "Toyota\tCorolla 2015") = .vstr "Toyota\tCorolla" ∧
    specFirstWSToken "Toyota\tCorolla 2015" = "Toyota" ∧
    brandOfTitle (.vstr "Toyota\tCorolla 2015") ≠
      .vstr (specFirstWSToken "Toyota\tCorolla 2015") := by
  refine ⟨by decide, by decide, by decide⟩

/-- C8 amended: the derived brand is the first token of the title when
split on the space character (equivalently, the longest space-free
prefix of the title); an empty title yields the empty brand without
failure; and the result depends on the title field alone. -/
theorem brand_first_space_token :
    (∀ t : String, brandOfTitle (.vstr t) =
        .vstr (String.mk (t.toList.takeWhile (fun c => c ≠ ' ')))) ∧
    brandOfTitle (.vstr "") = .vstr "" ∧
    (∀ r₁ r₂ : Row, r₁.title = r₂.title →
        (deriveBrand r₁).brand = (deriveBrand r₂).brand) := by
  refine ⟨?_, by decide, ?_⟩
  · intro t
    cases hsp : splitSpace t.toList with
    | nil => exact absurd hsp (splitSpace_ne_nil _)
    | cons h tl =>
        have hh := splitSpace_head t.toList h tl hsp
        have hf : firstTokenSpace t = String.mk h := by
          unfold firstTokenSpace
          rw [hsp]
        show Value.vstr (firstTokenSpace t) = _
        rw [hf, hh]
  · intro r₁ r₂ h
    show brandOfTitle r₁.title = brandOfTitle r₂.title
    rw [h]

/-- Closed witness for the amended C8 theorem: two rows sharing the title
`"Toyota Corolla 2015"` but differing in every other field derive the
same brand. -/
theorem brand_first_space_token_witness :
    (deriveBrand exRowGood).brand = (deriveBrand exRowGood2).brand :=
  brand_first_space_token.2.2 exRowGood exRowGood2 rfl

/-- C6 counterexample: in a two-row cleaned dataset whose only observed
year is 2010, filtering with the full brand set and the full observed
year range drops the row whose year is missing, so the result is not the
full dataset. -/
theorem filterView_full_counterexample :
    rcB ∈ dsC6 ∧
    filterView dsC6 [Value.vstr "Toyota"] 2010 2010 = [rcA] ∧
    filterView dsC6 [Value.vstr "Toyota"] 2010 2010 ≠ dsC6 := by
  refine ⟨by decide, by decide, by decide⟩

/-- C6 amended: filtering with a selection containing every brand of the
dataset and a year range covering every present year returns the full
dataset, provided every row's year is present; rows with a missing year
are always excluded by the year filter. -/
theorem filterView_full_selection :
    (∀ (ds : List Row) (sel : List Value) (lo hi : ℚ),
        (∀ r ∈ ds, r.brand ∈ sel) →
        (∀ r ∈ ds, ∃ y : ℚ, r.year = .vnum y ∧ lo ≤ y ∧ y ≤ hi) →
        filterView ds sel lo hi = ds) ∧
    (∀ (ds : List Row) (sel : List Value) (lo hi : ℚ) (r : Row),
        r ∈ filterView ds sel lo hi →
        ∃ y : ℚ, r.year = .vnum y ∧ lo ≤ y ∧ y ≤ hi) := by
  constructor
  · intro ds sel lo hi hb hy
    unfold filterView
    have h1 : ds.filter (fun r => decide (r.brand ∈ sel)) = ds :=
      List.filter_eq_self.mpr (fun r hr => by simpa using hb r hr)
    rw [h1]
    apply List.filter_eq_self.mpr
    intro r hr
    obtain ⟨y, hy1, hy2, hy3⟩ := hy r hr
    unfold vge vle
    rw [hy1]
    simp [hy2, hy3]
  · intro ds sel lo hi r h
    unfold filterView at h
    rw [List.mem_filter] at h
    obtain ⟨_, hcond⟩ := h
    rw [Bool.and_eq_true] at hcond
    obtain ⟨hge, hle⟩ := hcond
    cases hy : r.year with
    | vnum y =>
        refine ⟨y, rfl, ?_, ?_⟩
        · unfold vge at hge; rw [hy] at hge; simpa using hge
        · unfold vle at hle; rw [hy] at hle; simpa using hle
    | vstr s => unfold vge at hge; rw [hy] at hge; simp at hge
    | vnan => unfold vge at hge; rw [hy] at hge; simp at hge

/-- Closed witness for the amended C6 theorem: on a one-row dataset whose
brand is selected and whose year 2010 lies in the range, the filter
returns the whole dataset. -/
theorem filterView_full_selection_witness :
    filterView [rcA] [Value.vstr "Toyota"] 2010 2010 = [rcA] :=
  filterView_full_selection.1 [rcA] [Value.vstr "Toyota"] 2010 2010
    (by intro r hr
        simp only [List.mem_singleton] at hr
        subst hr
        decide)
    (by intro r hr
        simp only [List.mem_singleton] at hr
        subst hr
        exact ⟨2010, rfl, le_refl _, le_refl _⟩)

end CDE
